import Mathlib

/-!
Verification of the URL-status probing pipeline of `src/app.py`.

The Python source is shallowly embedded over `List Char` strings:

* `strip` models Python `str.strip()` (whitespace trimming on both ends).
* `hasScheme` models the scheme detection performed by
  `urllib.parse.urlparse(url).scheme` (CPython: the URL is first
  left-stripped of C0-control/space characters and tab/CR/LF characters
  are removed everywhere; a scheme is present iff the first colon is
  preceded by an ASCII letter followed by letters, digits, `+`, `-`, `.`).
* `normalize_url` embeds `normalize_url` of `src/app.py`.
* HTTP is an oracle `env : Str → Option Nat`: `env u = some code` means a
  GET request to `u` returns status `code`, `env u = none` means the
  request raises.  `check_url_run` embeds `check_url_status` together
  with the list of URLs it actually attempts (the `_do_request` calls);
  Python's `str(resp.status_code)` is modelled by `natStr`.
* `preload_sheets_data`, `walkRows` and `process_sheets` embed the
  spreadsheet pre-scan and the row-walking loop of `src/app.py`
  (`preload_sheets_data` / `process_sheets`).  Side effects on the
  spreadsheet (header writes, batch cell writes) and the probe attempts
  are recorded as an explicit `Event` trace in program order; the
  progress reports are recorded as the value of the global processed
  counter at the moment of each report.
-/

namespace LBApp

abbrev Str := List Char

/-- ASCII whitespace trimmed by Python `str.strip()`. -/
def isSpace (c : Char) : Bool :=
  c = ' ' || c = '\t' || c = '\n' || c = '\r' || c = '\x0b' || c = '\x0c'

/-- Python `str.strip()`: drop whitespace from both ends. -/
def strip (l : Str) : Str :=
  List.rdropWhile isSpace (List.dropWhile isSpace l)

/-- Sanitization CPython's `urlsplit` applies before scheme detection:
left-strip C0 controls and spaces, remove tab/CR/LF everywhere. -/
def urlFix (l : Str) : Str :=
  (l.dropWhile (fun c => c.toNat ≤ 32)).filter (fun c => !(c = '\t' || c = '\r' || c = '\n'))

/-- Characters allowed in a URI scheme after the first (CPython `scheme_chars`). -/
def schemeChar (c : Char) : Bool :=
  c.isAlphanum || c = '+' || c = '-' || c = '.'

/-- Scan for the colon terminating a scheme: all characters before the first
colon must be scheme characters, and a colon must exist. -/
def schemeColon : Str → Bool
  | [] => false
  | c :: rest => if c = ':' then true else schemeChar c && schemeColon rest

/-- Does `urlparse(l).scheme` come out non-empty? -/
def hasScheme (l : Str) : Bool :=
  match urlFix l with
  | [] => false
  | c :: rest => c.isAlpha && schemeColon rest

def httpColon : Str := ['h', 't', 't', 'p', ':']
def httpSlashes : Str := ['h', 't', 't', 'p', ':', '/', '/']
def httpsSlashes : Str := ['h', 't', 't', 'p', 's', ':', '/', '/']
def siteNotFound : Str := "Site Not Found".toList

/-- Embedding of `normalize_url` (src/app.py lines 68-90): empty input is
returned as is; otherwise the input is stripped, a protocol-relative URL
gets the `http:` prefix, a scheme-less URL gets the `http://` prefix, and
a URL with a scheme is returned unchanged. -/
def normalize_url (url : Str) : Str :=
  if url = [] then []
  else if (['/', '/'] : Str).isPrefixOf (strip url) then httpColon ++ strip url
  else if hasScheme (strip url) = false then httpSlashes ++ strip url
  else strip url

/-- Decimal digits of `n`, fuel-based so that it reduces in the kernel. -/
def natStrGo : Nat → Nat → Str
  | 0, _ => []
  | fuel + 1, n =>
    if n < 10 then [Nat.digitChar n]
    else natStrGo fuel (n / 10) ++ [Nat.digitChar (n % 10)]

/-- Model of Python `str(code)` for the (non-negative) HTTP status code. -/
def natStr (n : Nat) : Str := natStrGo (n + 1) n

/-- Embedding of `check_url_status` (src/app.py lines 114-137), paired with
the list of URLs handed to `_do_request`, in order.  `env u = none` models
`requests.get` raising; the `try/except` blocks become matches on `env`. -/
def check_url_run (env : Str → Option Nat) (url : Str) : Str × List Str :=
  let u := normalize_url url
  if u = [] then ([], [])
  else
    match env u with
    | some code => (natStr code, [u])
    | none =>
      if httpsSlashes.isPrefixOf u then
        let http_url := httpSlashes ++ u.drop httpsSlashes.length
        match env http_url with
        | some code => (natStr code, [u, http_url])
        | none => (siteNotFound, [u, http_url])
      else (siteNotFound, [u])

/-- The value returned by `check_url_status`. -/
def check_url_status (env : Str → Option Nat) (url : Str) : Str :=
  (check_url_run env url).1

/-- The URLs `check_url_status` actually attempts, in order. -/
def check_url_attempts (env : Str → Option Nat) (url : Str) : List Str :=
  (check_url_run env url).2

def URL_COLUMN_NAME : Str := "Source".toList
def STATUS_COLUMN_NAME : Str := "Response code".toList

/-- One cell of a batch update (`gspread.Cell(row=…, col=…, value=…)`). -/
structure CellUpdate where
  row : Nat
  col : Nat
  value : Str
deriving DecidableEq

/-- One entry of `detailed_results` (src/app.py lines 286-293). -/
structure RowDetail where
  sheet : Str
  row : Nat
  url : Str
  status : Str
deriving DecidableEq

/-- One entry of `results_summary`. -/
structure SheetSummary where
  sheet : Str
  total_urls : Nat
  processed_urls : Nat
deriving DecidableEq

/-- Externally visible effects of a run, in program order. -/
inductive Event where
  | headerWrite (sheet : Str) (header : List Str)
  | probe (url : Str)
  | batchWrite (sheet : Str) (cells : List CellUpdate)
deriving DecidableEq

def Event.isBatchWrite : Event → Bool
  | .batchWrite _ _ => true
  | _ => false

def Event.isHeaderWrite : Event → Bool
  | .headerWrite _ _ => true
  | _ => false

/-- Per-sheet record built by `preload_sheets_data`. -/
structure SheetData where
  values : List (List Str)
  url_col : Option Nat
  status_col : Option Nat
deriving DecidableEq

/-- URL-cell extraction shared by the pre-scan count and the walk loop:
`url = (row[url_col - 1] or "").strip() if len(row) >= url_col else ""`. -/
def extractUrl (url_col : Nat) (row : List Str) : Str :=
  if url_col ≤ row.length then strip (row.getD (url_col - 1) []) else []

/-- The pre-scan count of non-empty URL cells of a sheet body. -/
def countUrls (url_col : Nat) (body : List (List Str)) : Nat :=
  body.countP (fun row => !(extractUrl url_col row).isEmpty)

/-- Embedding of `ensure_status_column` (src/app.py lines 51-63): returns the
1-based status column index, the (possibly extended) header row, and whether
the header row was written back to the sheet. -/
def ensure_status_column (headers : List Str) : Nat × List Str × Bool :=
  if STATUS_COLUMN_NAME ∈ headers then
    (headers.indexOf STATUS_COLUMN_NAME + 1, headers, false)
  else
    (headers.length + 1, headers ++ [STATUS_COLUMN_NAME], true)

/-- Pre-scan of a single sheet (one iteration of the loop in
`preload_sheets_data`, src/app.py lines 165-208): returns the stored
`SheetData` (with the header row as mutated by `ensure_status_column`),
the sheet's non-empty-URL count, and the header row written back, if any. -/
def preloadSheet (values : List (List Str)) : SheetData × Nat × Option (List Str) :=
  match values with
  | [] => (⟨[], none, none⟩, 0, none)
  | headers :: body =>
    if URL_COLUMN_NAME ∈ headers then
      let url_col := headers.indexOf URL_COLUMN_NAME + 1
      let esc := ensure_status_column headers
      (⟨esc.2.1 :: body, some url_col, some esc.1⟩, countUrls url_col body,
        if esc.2.2 then some esc.2.1 else none)
    else
      (⟨headers :: body, none, none⟩, 0, none)

structure PreloadOut where
  data : List (Str × SheetData)
  total : Nat
  headerWrites : List (Str × List Str)
deriving DecidableEq

/-- Embedding of `preload_sheets_data` (src/app.py lines 142-210) over the
selected sheets, given as `(name, raw cell values)` pairs in selection
order (worksheet titles are unique, so the Python dict keyed by name is
modelled by this ordered association list). -/
def preload_sheets_data : List (Str × List (List Str)) → PreloadOut
  | [] => ⟨[], 0, []⟩
  | (name, values) :: rest =>
    let s := preloadSheet values
    let r := preload_sheets_data rest
    ⟨(name, s.1) :: r.data, s.2.1 + r.total,
      (match s.2.2 with | some h => [(name, h)] | none => []) ++ r.headerWrites⟩

/-- Result of walking one sheet's body rows (the `for row_idx, row in
enumerate(values[1:], start=2)` loop of `process_sheets`). -/
structure WalkOut where
  trace : List Event
  cells : List CellUpdate
  details : List RowDetail
  total : Nat
  processed : Nat
  gFinal : Nat
  progressEvents : List Nat
deriving DecidableEq

/-- Embedding of the row loop of `process_sheets` (src/app.py lines 263-300).
`idx` is the 1-based sheet row of the next body row (the loop starts at 2,
the header being row 1); `g` is the global `processed` counter.  Each
non-empty URL row increments both per-sheet counters, probes, records a
cell update and a detail entry, and reports progress (recorded as the new
value of the global counter). -/
def walkRows (env : Str → Option Nat) (name : Str) (url_col status_col : Nat) :
    Nat → Nat → List (List Str) → WalkOut
  | _, g, [] => ⟨[], [], [], 0, 0, g, []⟩
  | idx, g, row :: rest =>
    let url := extractUrl url_col row
    if url.isEmpty then walkRows env name url_col status_col (idx + 1) g rest
    else
      let r := check_url_run env url
      let w := walkRows env name url_col status_col (idx + 1) (g + 1) rest
      ⟨r.2.map Event.probe ++ w.trace,
        ⟨idx, status_col, r.1⟩ :: w.cells,
        ⟨name, idx, url, r.1⟩ :: w.details,
        w.total + 1, w.processed + 1, w.gFinal, (g + 1) :: w.progressEvents⟩

/-- After the row loop, `process_sheets` issues one batch update for the
sheet, only when there is something to write (src/app.py lines 302-304). -/
def sheetTrace (name : Str) (w : WalkOut) : List Event :=
  w.trace ++ (if w.cells.isEmpty then [] else [Event.batchWrite name w.cells])

structure GoOut where
  summaries : List SheetSummary
  details : List RowDetail
  trace : List Event
  progressEvents : List Nat
  gFinal : Nat
deriving DecidableEq

/-- The per-sheet loop of `process_sheets` (src/app.py lines 235-312):
empty sheets and sheets without the URL column get a `(0, 0)` summary and
are otherwise skipped; the rest are walked. -/
def processSheetsGo (env : Str → Option Nat) : Nat → List (Str × SheetData) → GoOut
  | g, [] => ⟨[], [], [], [], g⟩
  | g, (name, d) :: rest =>
    if d.values.isEmpty then
      let r := processSheetsGo env g rest
      ⟨⟨name, 0, 0⟩ :: r.summaries, r.details, r.trace, r.progressEvents, r.gFinal⟩
    else
      match d.url_col with
      | none =>
        let r := processSheetsGo env g rest
        ⟨⟨name, 0, 0⟩ :: r.summaries, r.details, r.trace, r.progressEvents, r.gFinal⟩
      | some uc =>
        let w := walkRows env name uc (d.status_col.getD 0) 2 g (d.values.drop 1)
        let r := processSheetsGo env w.gFinal rest
        ⟨⟨name, w.total, w.processed⟩ :: r.summaries,
          w.details ++ r.details,
          sheetTrace name w ++ r.trace,
          w.progressEvents ++ r.progressEvents,
          r.gFinal⟩

structure RunOut where
  summaries : List SheetSummary
  details : List RowDetail
  trace : List Event
  progressEvents : List Nat
  total : Nat
deriving DecidableEq

/-- Embedding of `process_sheets` (src/app.py lines 213-314): pre-scan
(including its header writes), early return with empty results when no
URLs were found, otherwise the per-sheet walk. -/
def process_sheets (env : Str → Option Nat) (sheets : List (Str × List (List Str))) : RunOut :=
  let p := preload_sheets_data sheets
  let headerEvents := p.headerWrites.map (fun hw => Event.headerWrite hw.1 hw.2)
  if p.total = 0 then ⟨[], [], headerEvents, [], p.total⟩
  else
    let r := processSheetsGo env 0 p.data
    ⟨r.summaries, r.details, headerEvents ++ r.trace, r.progressEvents, p.total⟩

/-- The number of rows the walk probes on one preloaded sheet. -/
def sheetCount (d : SheetData) : Nat :=
  if d.values.isEmpty then 0
  else
    match d.url_col with
    | none => 0
    | some uc => countUrls uc (d.values.drop 1)

/-- Total number of rows the walk probes over preloaded sheets. -/
def dataTotal (data : List (Str × SheetData)) : Nat :=
  (data.map (fun s => sheetCount s.2)).sum

/-! Basic facts about `strip`. -/

lemma dropWhile_length_le {α : Type} (p : α → Bool) (l : List α) :
    (List.dropWhile p l).length ≤ l.length := by
  induction l with
  | nil => simp
  | cons a l ih =>
    rw [List.dropWhile_cons]
    split
    · exact le_trans ih (Nat.le_succ _)
    · exact le_refl _

lemma dropWhile_fix_head {α : Type} {p : α → Bool} {c : α} {w : List α}
    (h : List.dropWhile p (c :: w) = c :: w) : p c = false := by
  by_contra hc
  rw [Bool.not_eq_false] at hc
  rw [List.dropWhile_cons, if_pos hc] at h
  have h1 : (List.dropWhile p w).length ≤ w.length := dropWhile_length_le p w
  have h2 := congrArg List.length h
  simp only [List.length_cons] at h2
  omega

lemma dw_strip (l : Str) : List.dropWhile isSpace (strip l) = strip l := by
  unfold strip
  have hmm : List.dropWhile isSpace (List.dropWhile isSpace l) = List.dropWhile isSpace l :=
    List.dropWhile_idempotent _ _
  obtain ⟨u, hu⟩ := List.rdropWhile_prefix isSpace (List.dropWhile isSpace l)
  cases hrd : List.rdropWhile isSpace (List.dropWhile isSpace l) with
  | nil => simp
  | cons c w =>
    rw [hrd] at hu
    have hc : isSpace c = false := by
      apply dropWhile_fix_head (w := w ++ u)
      rw [← List.cons_append, hu]
      exact hmm
    rw [List.dropWhile_cons, if_neg (by simp [hc])]

lemma sr_strip (l : Str) : List.rdropWhile isSpace (strip l) = strip l := by
  unfold strip
  exact List.rdropWhile_idempotent _ _

lemma strip_strip (l : Str) : strip (strip l) = strip l := by
  have h1 := dw_strip l
  show List.rdropWhile isSpace (List.dropWhile isSpace (strip l)) = strip l
  rw [h1]
  exact sr_strip l

lemma sr_append {a t : Str} (ht : List.rdropWhile isSpace t = t) (hne : t ≠ []) :
    List.rdropWhile isSpace (a ++ t) = a ++ t := by
  rw [List.rdropWhile_eq_self_iff] at ht ⊢
  intro h
  rw [List.getLast_append' a t hne]
  exact ht hne

lemma strip_cons_append {c : Char} (hc : isSpace c = false) {a t : Str}
    (ht : List.rdropWhile isSpace t = t) (hne : t ≠ []) :
    strip ((c :: a) ++ t) = (c :: a) ++ t := by
  unfold strip
  rw [List.cons_append, List.dropWhile_cons, if_neg (by simp [hc]), ← List.cons_append]
  exact sr_append ht hne

/-! Basic facts about `hasScheme`. -/

lemma hasScheme_http (s : Str) : hasScheme (httpColon ++ s) = true := by
  show hasScheme ('h' :: 't' :: 't' :: 'p' :: ':' :: s) = true
  unfold hasScheme urlFix
  rw [List.dropWhile_cons, if_neg (by decide)]
  repeat rw [List.filter_cons_of_pos (by decide)]
  simp [schemeColon, schemeChar]

lemma hasScheme_ne_nil {l : Str} (h : hasScheme l = true) : l ≠ [] := by
  intro he
  subst he
  simp [hasScheme, urlFix] at h

lemma hasScheme_head_not_slash {l : Str} (h : hasScheme l = true) :
    (['/', '/'] : Str).isPrefixOf l = false := by
  cases l with
  | nil => rfl
  | cons c w =>
    by_cases hc : c = '/'
    · subst hc
      exfalso
      have hfalse : hasScheme ('/' :: w) = false := by
        unfold hasScheme urlFix
        rw [List.dropWhile_cons, if_neg (by decide), List.filter_cons_of_pos (by decide)]
        simp
      rw [h] at hfalse
      exact Bool.noConfusion hfalse
    · simp [List.isPrefixOf, Ne.symm hc]

/-! `normalize_url` fixes every string that is already stripped and
carries a scheme; all of its non-empty outputs are of that shape. -/

lemma normalize_fixed {l : Str} (h2 : strip l = l) (h3 : hasScheme l = true) :
    normalize_url l = l := by
  have h1 : l ≠ [] := hasScheme_ne_nil h3
  simp [normalize_url, h1, h2, h3, hasScheme_head_not_slash h3]

lemma normalize_ne_nil {url : Str} (h : url ≠ []) : normalize_url url ≠ [] := by
  unfold normalize_url
  rw [if_neg h]
  split_ifs with h1 h2
  · simp [httpColon]
  · simp [httpSlashes]
  · exact hasScheme_ne_nil (by simpa using h2)

lemma natStr_ne_nil (n : Nat) : natStr n ≠ [] := by
  show natStrGo (n + 1) n ≠ []
  rw [natStrGo]
  split
  · simp
  · simp

/-- C4: `normalize_url` is idempotent on every string. -/
theorem normalize_url_idempotent (l : Str) :
    normalize_url (normalize_url l) = normalize_url l := by
  by_cases h0 : l = []
  · subst h0
    rfl
  · by_cases h1 : (['/', '/'] : Str).isPrefixOf (strip l) = true
    · have hl : normalize_url l = httpColon ++ strip l := by
        simp [normalize_url, h0, h1]
      have hne : strip l ≠ [] := by
        intro he
        rw [he] at h1
        simp [List.isPrefixOf] at h1
      rw [hl]
      exact normalize_fixed (strip_cons_append (by decide) (sr_strip l) hne)
        (hasScheme_http (strip l))
    · by_cases h2 : hasScheme (strip l) = true
      · have hl : normalize_url l = strip l := by
          simp [normalize_url, h0, h1, h2]
        rw [hl]
        exact normalize_fixed (strip_strip l) h2
      · have hx : hasScheme (strip l) = false := by
          simpa using h2
        have hl : normalize_url l = httpSlashes ++ strip l := by
          simp [normalize_url, h0, h1, hx]
        rw [hl]
        by_cases hne : strip l = []
        · rw [hne, List.append_nil]
          decide
        · have hsch : hasScheme (httpSlashes ++ strip l) = true := by
            have hassoc : httpSlashes ++ strip l = httpColon ++ (['/', '/'] ++ strip l) := rfl
            rw [hassoc]
            exact hasScheme_http _
          exact normalize_fixed (strip_cons_append (by decide) (sr_strip l) hne) hsch

/-- C3: the five normalization equations, with the second corrected to what
the code actually does: `normalize_url` tests emptiness before stripping, so
a whitespace-only input is stripped to `""` and then, lacking a scheme,
prefixed with `http://` instead of being mapped to the empty sentinel. -/
theorem normalize_url_equations :
    normalize_url ("".toList) = "".toList ∧
    normalize_url ("  ".toList) = "http://".toList ∧
    normalize_url ("//a.com/x".toList) = "http://a.com/x".toList ∧
    normalize_url ("a.com".toList) = "http://a.com".toList ∧
    normalize_url ("https://a.com".toList) = "https://a.com".toList := by
  refine ⟨?_, ?_, ?_, ?_, ?_⟩ <;> decide

/-- C3 (counterexample): contrary to the claimed equation
`normalize("  ") == ""`, the code returns `"http://"` on two spaces. -/
theorem normalize_url_ws_cex :
    normalize_url ("  ".toList) ≠ ("".toList) ∧
    normalize_url ("  ".toList) = "http://".toList := by
  constructor <;> decide

/-- C1: whenever the first attempt on a non-empty normalized URL fails,
`check_url_status` retries exactly once, with `http://` substituted for the
leading `https://` (rest of the URL unchanged), if and only if the attempted
URL started with `https://`; if the retry also fails, or the attempted URL
was not `https`, the result is the sentinel `"Site Not Found"`. -/
theorem check_url_status_fallback (env : Str → Option Nat) (url : Str)
    (h1 : normalize_url url ≠ []) (h2 : env (normalize_url url) = none) :
    (check_url_attempts env url =
      if httpsSlashes.isPrefixOf (normalize_url url) then
        [normalize_url url, httpSlashes ++ (normalize_url url).drop httpsSlashes.length]
      else [normalize_url url]) ∧
    (httpsSlashes.isPrefixOf (normalize_url url) = false →
      check_url_status env url = siteNotFound) ∧
    (httpsSlashes.isPrefixOf (normalize_url url) = true →
      env (httpSlashes ++ (normalize_url url).drop httpsSlashes.length) = none →
      check_url_status env url = siteNotFound) := by
  by_cases hp : httpsSlashes.isPrefixOf (normalize_url url) = true
  · refine ⟨?_, ?_, ?_⟩
    · cases henv2 : env (httpSlashes ++ (normalize_url url).drop httpsSlashes.length) with
      | none => simp [check_url_attempts, check_url_run, h1, h2, hp, henv2]
      | some n => simp [check_url_attempts, check_url_run, h1, h2, hp, henv2]
    · intro hfalse
      rw [hp] at hfalse
      exact Bool.noConfusion hfalse
    · intro _ henv2
      simp [check_url_status, check_url_run, h1, h2, hp, henv2]
  · refine ⟨?_, ?_, ?_⟩
    · simp [check_url_attempts, check_url_run, h1, h2, hp]
    · intro _
      simp [check_url_status, check_url_run, h1, h2, hp]
    · intro htrue
      exact absurd htrue hp

/-- C1 (witness): a constantly failing oracle on `https://a.com` ends in the
sentinel after the `http://` retry also fails. -/
theorem check_url_status_fallback_witness :
    check_url_status (fun _ => none) ("https://a.com".toList) = siteNotFound := by
  have h := check_url_status_fallback (fun _ => none) ("https://a.com".toList)
    (by decide) rfl
  exact h.2.2 (by decide) rfl

/-- C2 (amended): on every non-empty input, `check_url_status` returns either
the decimal rendering of a status code or the sentinel `"Site Not Found"`
(it is a total function by construction, modelling that all request
exceptions are caught). -/
theorem check_url_status_total (env : Str → Option Nat) (url : Str) (h : url ≠ []) :
    (∃ n, check_url_status env url = natStr n) ∨
    check_url_status env url = siteNotFound := by
  cases henv : env (normalize_url url) with
  | some n =>
    left
    exact ⟨n, by simp [check_url_status, check_url_run, normalize_ne_nil h, henv]⟩
  | none =>
    by_cases hp : httpsSlashes.isPrefixOf (normalize_url url) = true
    · cases henv2 : env (httpSlashes ++ (normalize_url url).drop httpsSlashes.length) with
      | some n =>
        left
        exact ⟨n, by simp [check_url_status, check_url_run, normalize_ne_nil h, henv, hp, henv2]⟩
      | none =>
        right
        simp [check_url_status, check_url_run, normalize_ne_nil h, henv, hp, henv2]
    · right
      simp [check_url_status, check_url_run, normalize_ne_nil h, henv, hp]

/-- C2 (witness): a scheme-less URL with a succeeding oracle yields a
numeric status string. -/
theorem check_url_status_total_witness :
    (∃ n, check_url_status (fun _ => some 200) ("a.com".toList) = natStr n) ∨
    check_url_status (fun _ => some 200) ("a.com".toList) = siteNotFound :=
  check_url_status_total (fun _ => some 200) ("a.com".toList) (by decide)

/-- C2 (counterexample): on the empty string the code returns `""`, which is
neither a numeric status string nor the sentinel, falsifying the claim for
that input. -/
theorem check_url_status_empty_cex :
    ¬((∃ n, check_url_status (fun _ => none) ([] : Str) = natStr n) ∨
      check_url_status (fun _ => none) ([] : Str) = siteNotFound) := by
  have hval : check_url_status (fun _ => none) ([] : Str) = [] := rfl
  rintro (⟨n, hn⟩ | hsnf)
  · rw [hval] at hn
    exact natStr_ne_nil n hn.symm
  · rw [hval] at hsnf
    exact absurd hsnf (by decide)

/-! Unfolding lemmas for the row loop. -/

lemma walkRows_cons_skip {env : Str → Option Nat} {name : Str} {uc sc idx g : Nat}
    {row : List Str} {rest : List (List Str)}
    (h : (extractUrl uc row).isEmpty = true) :
    walkRows env name uc sc idx g (row :: rest)
      = walkRows env name uc sc (idx + 1) g rest := by
  rw [walkRows]
  simp [h]

lemma walkRows_cons_probe {env : Str → Option Nat} {name : Str} {uc sc idx g : Nat}
    {row : List Str} {rest : List (List Str)}
    (h : (extractUrl uc row).isEmpty = false) :
    walkRows env name uc sc idx g (row :: rest) =
      { trace := (check_url_run env (extractUrl uc row)).2.map Event.probe
          ++ (walkRows env name uc sc (idx + 1) (g + 1) rest).trace,
        cells := ⟨idx, sc, (check_url_run env (extractUrl uc row)).1⟩
          :: (walkRows env name uc sc (idx + 1) (g + 1) rest).cells,
        details := ⟨name, idx, extractUrl uc row, (check_url_run env (extractUrl uc row)).1⟩
          :: (walkRows env name uc sc (idx + 1) (g + 1) rest).details,
        total := (walkRows env name uc sc (idx + 1) (g + 1) rest).total + 1,
        processed := (walkRows env name uc sc (idx + 1) (g + 1) rest).processed + 1,
        gFinal := (walkRows env name uc sc (idx + 1) (g + 1) rest).gFinal,
        progressEvents := (g + 1)
          :: (walkRows env name uc sc (idx + 1) (g + 1) rest).progressEvents } := by
  rw [walkRows]
  simp [h]

/-- Everything the later claims need about one sheet's row loop, proved in a
single induction: both counters and the number of emitted details equal the
pre-scan count of the body, the progress reports are the consecutive values
of the global counter, the batch cells are exactly the details re-addressed
at the status column, and the loop's own trace consists of probe events. -/
lemma walkRows_spec (env : Str → Option Nat) (name : Str) (uc sc : Nat)
    (body : List (List Str)) : ∀ (idx g : Nat),
    (walkRows env name uc sc idx g body).total = countUrls uc body ∧
    (walkRows env name uc sc idx g body).processed = countUrls uc body ∧
    (walkRows env name uc sc idx g body).details.length = countUrls uc body ∧
    (walkRows env name uc sc idx g body).progressEvents
      = List.range' (g + 1) (countUrls uc body) ∧
    (walkRows env name uc sc idx g body).gFinal = g + countUrls uc body ∧
    (walkRows env name uc sc idx g body).cells
      = (walkRows env name uc sc idx g body).details.map
          (fun d => ⟨d.row, sc, d.status⟩) ∧
    (∀ e ∈ (walkRows env name uc sc idx g body).trace, ∃ u, e = Event.probe u) := by
  induction body with
  | nil =>
    intro idx g
    simp [walkRows, countUrls]
  | cons row rest ih =>
    intro idx g
    by_cases h : (extractUrl uc row).isEmpty = true
    · have hcount : countUrls uc (row :: rest) = countUrls uc rest := by
        simp [countUrls, List.countP_cons, h]
      rw [walkRows_cons_skip h, hcount]
      exact ih (idx + 1) g
    · have hb : (extractUrl uc row).isEmpty = false := by simpa using h
      have hcount : countUrls uc (row :: rest) = countUrls uc rest + 1 := by
        simp [countUrls, List.countP_cons, hb]
      obtain ⟨iht, ihp, ihd, ihe, ihg, ihc, ihtr⟩ := ih (idx + 1) (g + 1)
      rw [walkRows_cons_probe hb, hcount]
      refine ⟨by simp [iht], by simp [ihp], by simp [ihd], ?_, by simp [ihg]; omega, ?_, ?_⟩
      · rw [List.range'_succ]
        simp [ihe]
      · simp only [List.map_cons]
        exact congrArg _ ihc
      · intro e he
        rcases List.mem_append.mp he with hl | hr
        · obtain ⟨u, _, hu⟩ := List.mem_map.mp hl
          exact ⟨u, hu.symm⟩
        · exact ihtr e hr

/-- Shape of every detail entry the row loop emits: its sheet row lies in
the body range starting at `idx`, its `url` is the trimmed cell extracted
from that very row, it is non-empty, and its status is the probe result of
that url. -/
lemma walkRows_details (env : Str → Option Nat) (name : Str) (uc sc : Nat)
    (body : List (List Str)) : ∀ (idx g : Nat),
    ∀ d ∈ (walkRows env name uc sc idx g body).details,
      idx ≤ d.row ∧ d.row < idx + body.length ∧
      d.url = extractUrl uc (body.getD (d.row - idx) []) ∧
      d.url ≠ [] ∧
      d.status = check_url_status env d.url ∧
      d.sheet = name := by
  induction body with
  | nil =>
    intro idx g d hd
    simp [walkRows] at hd
  | cons row rest ih =>
    intro idx g d hd
    by_cases h : (extractUrl uc row).isEmpty = true
    · rw [walkRows_cons_skip h] at hd
      obtain ⟨ha, hb, hc, hd', he, hf⟩ := ih (idx + 1) g d hd
      refine ⟨by omega, by simp; omega, ?_, hd', he, hf⟩
      have hrow : d.row - idx = (d.row - (idx + 1)) + 1 := by omega
      rw [hrow, List.getD_cons_succ]
      exact hc
    · have hb : (extractUrl uc row).isEmpty = false := by simpa using h
      rw [walkRows_cons_probe hb] at hd
      simp only [List.mem_cons] at hd
      rcases hd with hd | hd
      · subst hd
        refine ⟨le_refl _, by simp, ?_, ?_, rfl, rfl⟩
        · simp
        · show extractUrl uc row ≠ []
          intro he
          rw [he] at hb
          simp at hb
      · obtain ⟨ha, hb', hc, hd', he, hf⟩ := ih (idx + 1) (g + 1) d hd
        refine ⟨by omega, by simp; omega, ?_, hd', he, hf⟩
        have hrow : d.row - idx = (d.row - (idx + 1)) + 1 := by omega
        rw [hrow, List.getD_cons_succ]
        exact hc

/-- C5: walking a sheet body, the two per-sheet counters both end up equal
to the number of body rows whose trimmed URL cell is non-empty (however
such rows are interleaved with empty or too-short rows), exactly one
detail entry is emitted per such row, and every emitted entry has a
non-empty url (skipped rows emit nothing). -/
theorem walkRows_counting (env : Str → Option Nat) (name : Str) (uc sc idx g : Nat)
    (body : List (List Str)) :
    (walkRows env name uc sc idx g body).total = countUrls uc body ∧
    (walkRows env name uc sc idx g body).processed = countUrls uc body ∧
    (walkRows env name uc sc idx g body).details.length = countUrls uc body ∧
    (∀ d ∈ (walkRows env name uc sc idx g body).details, d.url ≠ []) := by
  obtain ⟨h1, h2, h3, _, _, _, _⟩ := walkRows_spec env name uc sc body idx g
  refine ⟨h1, h2, h3, fun d hd => ?_⟩
  exact (walkRows_details env name uc sc body idx g d hd).2.2.2.1

/-- C5 (witness): a three-row body with one blank and one short row counts
and processes exactly its two non-empty URL rows. -/
theorem walkRows_counting_witness :
    (walkRows (fun _ => some 200) (['A'] : Str) 1 2 2 0
        [[("a.com".toList : Str)], [("  ".toList : Str)], [], [("https://b.io".toList : Str)]]).total
      = countUrls 1 [[("a.com".toList : Str)], [("  ".toList : Str)], [], [("https://b.io".toList : Str)]] :=
  (walkRows_counting (fun _ => some 200) (['A'] : Str) 1 2 2 0
    [[("a.com".toList : Str)], [("  ".toList : Str)], [], [("https://b.io".toList : Str)]]).1

/-- C8: the row loop itself performs no write (its trace is probes only);
the batch issued for the sheet afterwards contains exactly one
`(row, status_col, outcome)` cell per probed row — the detail outcomes
re-addressed at the status column — and is issued, as the single final
event of the sheet, exactly when at least one row was probed. -/
theorem walkRows_batch (env : Str → Option Nat) (name : Str) (uc sc idx g : Nat)
    (body : List (List Str)) (w : WalkOut)
    (hw : w = walkRows env name uc sc idx g body) :
    (∀ e ∈ w.trace, ∃ u, e = Event.probe u) ∧
    w.cells = w.details.map (fun d => ⟨d.row, sc, d.status⟩) ∧
    w.cells.length = w.processed ∧
    (w.cells.isEmpty = true ↔ w.processed = 0) ∧
    (w.processed = 0 → sheetTrace name w = w.trace) ∧
    (w.processed ≠ 0 → sheetTrace name w = w.trace ++ [Event.batchWrite name w.cells]) := by
  subst hw
  obtain ⟨h1, h2, h3, h4, h5, h6, h7⟩ := walkRows_spec env name uc sc body idx g
  have hlen : (walkRows env name uc sc idx g body).cells.length
      = (walkRows env name uc sc idx g body).processed := by
    rw [h6, List.length_map, h3, h2]
  have hiff : (walkRows env name uc sc idx g body).cells.isEmpty = true
      ↔ (walkRows env name uc sc idx g body).processed = 0 := by
    rw [List.isEmpty_iff, ← List.length_eq_zero, hlen]
  refine ⟨h7, h6, hlen, hiff, ?_, ?_⟩
  · intro hp0
    unfold sheetTrace
    rw [if_pos (hiff.mpr hp0), List.append_nil]
  · intro hpne
    unfold sheetTrace
    rw [if_neg ?_]
    intro habs
    exact hpne (hiff.mp habs)

/-- C8 (witness): on a two-row body the batch cells are the details mapped
to the status column. -/
theorem walkRows_batch_witness :
    (walkRows (fun _ => some 404) (['A'] : Str) 1 2 2 0
        [[("a.com".toList : Str)], [("b.org".toList : Str)]]).cells
      = (walkRows (fun _ => some 404) (['A'] : Str) 1 2 2 0
          [[("a.com".toList : Str)], [("b.org".toList : Str)]]).details.map
            (fun d => ⟨d.row, 2, d.status⟩) :=
  (walkRows_batch (fun _ => some 404) (['A'] : Str) 1 2 2 0
    [[("a.com".toList : Str)], [("b.org".toList : Str)]] _ rfl).2.1

/-- C9 (amended): every detail entry emitted by the walk carries a 1-based
row index with the header as row 1 (the first body row is row 2), and its
`url` field is the trimmed raw cell text of that row — the probed URL is
obtained from it by normalization inside `check_url_status`, whose result
is the recorded status. -/
theorem walkRows_row_result (env : Str → Option Nat) (name : Str) (uc sc g : Nat)
    (body : List (List Str)) :
    ∀ d ∈ (walkRows env name uc sc 2 g body).details,
      2 ≤ d.row ∧ d.row < 2 + body.length ∧
      d.url = extractUrl uc (body.getD (d.row - 2) []) ∧
      d.status = check_url_status env d.url ∧
      d.sheet = name := by
  intro d hd
  obtain ⟨h1, h2, h3, _, h5, h6⟩ := walkRows_details env name uc sc body 2 g d hd
  exact ⟨h1, h2, h3, h5, h6⟩

/-- C9 (witness): on the body `[["https://x"]]` the emitted detail has row
index 2, its url is the cell text and its status the probe result. -/
theorem walkRows_row_result_witness :
    (⟨(['A'] : Str), 2, ("https://x".toList : Str), natStr 200⟩ : RowDetail).url
      = extractUrl 1
          (([[("https://x".toList : Str)]] : List (List Str)).getD
            ((⟨(['A'] : Str), 2, ("https://x".toList : Str), natStr 200⟩ : RowDetail).row - 2) []) := by
  have h := walkRows_row_result (fun _ => some 200) (['A'] : Str) 1 2 0
    [[("https://x".toList : Str)]]
    ⟨(['A'] : Str), 2, ("https://x".toList : Str), natStr 200⟩ (by decide)
  exact h.2.2.1

/-- C9 (counterexample): the recorded url string is the trimmed raw cell,
not the normalized URL that was probed — for the cell `"a.com"` the detail
records `"a.com"` while the probed URL is `"http://a.com"`. -/
theorem walkRows_url_cex :
    ((walkRows (fun _ => some 200) (['A'] : Str) 1 2 2 0
        [[("a.com".toList : Str)]]).details.getD 0 ⟨[], 0, [], []⟩).url
      = ("a.com".toList : Str) ∧
    normalize_url ("a.com".toList) = ("http://a.com".toList : Str) ∧
    ("a.com".toList : Str) ≠ ("http://a.com".toList : Str) := by
  refine ⟨by decide, by decide, by decide⟩

/-! Unfolding and bookkeeping lemmas for the per-sheet loop and the pre-scan. -/

lemma go_cons_empty {env : Str → Option Nat} {g : Nat} {name : Str} {d : SheetData}
    {rest : List (Str × SheetData)} (h : d.values.isEmpty = true) :
    processSheetsGo env g ((name, d) :: rest)
      = ⟨⟨name, 0, 0⟩ :: (processSheetsGo env g rest).summaries,
          (processSheetsGo env g rest).details,
          (processSheetsGo env g rest).trace,
          (processSheetsGo env g rest).progressEvents,
          (processSheetsGo env g rest).gFinal⟩ := by
  rw [processSheetsGo]
  simp [h]

lemma go_cons_nocol {env : Str → Option Nat} {g : Nat} {name : Str} {d : SheetData}
    {rest : List (Str × SheetData)} (h1 : d.values.isEmpty = false)
    (h2 : d.url_col = none) :
    processSheetsGo env g ((name, d) :: rest)
      = ⟨⟨name, 0, 0⟩ :: (processSheetsGo env g rest).summaries,
          (processSheetsGo env g rest).details,
          (processSheetsGo env g rest).trace,
          (processSheetsGo env g rest).progressEvents,
          (processSheetsGo env g rest).gFinal⟩ := by
  rw [processSheetsGo]
  simp [h1, h2]

lemma go_cons_walk {env : Str → Option Nat} {g : Nat} {name : Str} {d : SheetData}
    {rest : List (Str × SheetData)} {uc : Nat} (h1 : d.values.isEmpty = false)
    (h2 : d.url_col = some uc) :
    processSheetsGo env g ((name, d) :: rest)
      = ⟨⟨name, (walkRows env name uc (d.status_col.getD 0) 2 g (d.values.drop 1)).total,
            (walkRows env name uc (d.status_col.getD 0) 2 g (d.values.drop 1)).processed⟩
          :: (processSheetsGo env
                (walkRows env name uc (d.status_col.getD 0) 2 g (d.values.drop 1)).gFinal
                rest).summaries,
          (walkRows env name uc (d.status_col.getD 0) 2 g (d.values.drop 1)).details
            ++ (processSheetsGo env
                  (walkRows env name uc (d.status_col.getD 0) 2 g (d.values.drop 1)).gFinal
                  rest).details,
          sheetTrace name (walkRows env name uc (d.status_col.getD 0) 2 g (d.values.drop 1))
            ++ (processSheetsGo env
                  (walkRows env name uc (d.status_col.getD 0) 2 g (d.values.drop 1)).gFinal
                  rest).trace,
          (walkRows env name uc (d.status_col.getD 0) 2 g (d.values.drop 1)).progressEvents
            ++ (processSheetsGo env
                  (walkRows env name uc (d.status_col.getD 0) 2 g (d.values.drop 1)).gFinal
                  rest).progressEvents,
          (processSheetsGo env
            (walkRows env name uc (d.status_col.getD 0) 2 g (d.values.drop 1)).gFinal
            rest).gFinal⟩ := by
  rw [processSheetsGo]
  simp [h1, h2]

lemma dataTotal_cons (s : Str × SheetData) (rest : List (Str × SheetData)) :
    dataTotal (s :: rest) = sheetCount s.2 + dataTotal rest := by
  simp [dataTotal]

lemma sheetTrace_no_header {name : Str} {w : WalkOut}
    (hw : ∀ e ∈ w.trace, ∃ u, e = Event.probe u) :
    ∀ e ∈ sheetTrace name w, e.isHeaderWrite = false := by
  intro e he
  unfold sheetTrace at he
  rcases List.mem_append.mp he with hl | hr
  · obtain ⟨u, hu⟩ := hw e hl
    rw [hu]
    rfl
  · by_cases hce : w.cells.isEmpty = true
    · rw [if_pos hce] at hr
      simp at hr
    · rw [if_neg hce] at hr
      simp at hr
      rw [hr]
      rfl

/-- Summaries, progress reports, final counter and trace contents of the
per-sheet loop. -/
lemma processSheetsGo_spec (env : Str → Option Nat) (data : List (Str × SheetData)) :
    ∀ g : Nat,
    (processSheetsGo env g data).summaries
      = data.map (fun s => ⟨s.1, sheetCount s.2, sheetCount s.2⟩) ∧
    (processSheetsGo env g data).progressEvents
      = List.range' (g + 1) (dataTotal data) ∧
    (processSheetsGo env g data).gFinal = g + dataTotal data ∧
    (∀ e ∈ (processSheetsGo env g data).trace, e.isHeaderWrite = false) := by
  induction data with
  | nil =>
    intro g
    simp [processSheetsGo, dataTotal]
  | cons s rest ih =>
    intro g
    obtain ⟨name, d⟩ := s
    by_cases h : d.values.isEmpty = true
    · have hc : sheetCount d = 0 := by simp [sheetCount, h]
      obtain ⟨ih1, ih2, ih3, ih4⟩ := ih g
      rw [go_cons_empty h]
      refine ⟨?_, ?_, ?_, ?_⟩
      · simp [ih1, hc]
      · simp [ih2, dataTotal_cons, hc]
      · simp [ih3, dataTotal_cons, hc]
      · exact ih4
    · have h1 : d.values.isEmpty = false := by simpa using h
      cases h2 : d.url_col with
      | none =>
        have hc : sheetCount d = 0 := by simp [sheetCount, h1, h2]
        obtain ⟨ih1, ih2, ih3, ih4⟩ := ih g
        rw [go_cons_nocol h1 h2]
        refine ⟨?_, ?_, ?_, ?_⟩
        · simp [ih1, hc]
        · simp [ih2, dataTotal_cons, hc]
        · simp [ih3, dataTotal_cons, hc]
        · exact ih4
      | some uc =>
        have hc : sheetCount d = countUrls uc (d.values.drop 1) := by
          simp [sheetCount, h1, h2]
        have hc2 : sheetCount ((name, d) : Str × SheetData).2
            = countUrls uc (d.values.drop 1) := hc
        obtain ⟨w1, w2, _, w4, w5, _, w7⟩ :=
          walkRows_spec env name uc (d.status_col.getD 0) (d.values.drop 1) 2 g
        obtain ⟨ih1, ih2, ih3, ih4⟩ := ih (g + countUrls uc (d.values.drop 1))
        rw [go_cons_walk h1 h2]
        simp only [w5, dataTotal_cons, hc2, hc]
        refine ⟨?_, ?_, ?_, ?_⟩
        · simp only [List.map_cons, w1, w2, ih1, hc]
        · rw [w4, ih2]
          have h0 : g + countUrls uc (d.values.drop 1) + 1
              = (g + 1) + 1 * countUrls uc (d.values.drop 1) := by omega
          rw [h0, List.range'_append,
            Nat.add_comm (dataTotal rest) (countUrls uc (d.values.drop 1))]
        · rw [ih3]
          omega
        · intro e he
          rcases List.mem_append.mp he with hl | hr
          · exact sheetTrace_no_header w7 e hl
          · exact ih4 e hr

lemma preloadSheet_count (values : List (List Str)) :
    (preloadSheet values).2.1 = sheetCount (preloadSheet values).1 := by
  cases values with
  | nil => simp [preloadSheet, sheetCount]
  | cons headers body =>
    by_cases hu : URL_COLUMN_NAME ∈ headers
    · simp [preloadSheet, hu, sheetCount]
    · simp [preloadSheet, hu, sheetCount]

lemma preloadSheet_headerWrite (values : List (List Str)) :
    (preloadSheet values).2.2
      = (match values with
        | [] => none
        | hd :: _ =>
          if URL_COLUMN_NAME ∈ hd ∧ STATUS_COLUMN_NAME ∉ hd then
            some (hd ++ [STATUS_COLUMN_NAME])
          else none) := by
  cases values with
  | nil => rfl
  | cons headers body =>
    by_cases hu : URL_COLUMN_NAME ∈ headers
    · by_cases hs : STATUS_COLUMN_NAME ∈ headers
      · simp [preloadSheet, ensure_status_column, hu, hs]
      · simp [preloadSheet, ensure_status_column, hu, hs]
    · simp [preloadSheet, hu]

/-- Order, count and header-write behaviour of the pre-scan pass. -/
lemma preload_spec (sheets : List (Str × List (List Str))) :
    (preload_sheets_data sheets).data
      = sheets.map (fun s => (s.1, (preloadSheet s.2).1)) ∧
    (preload_sheets_data sheets).total
      = dataTotal ((preload_sheets_data sheets).data) ∧
    (preload_sheets_data sheets).headerWrites
      = sheets.filterMap (fun s =>
          match s.2 with
          | [] => none
          | hd :: _ =>
            if URL_COLUMN_NAME ∈ hd ∧ STATUS_COLUMN_NAME ∉ hd then
              some (s.1, hd ++ [STATUS_COLUMN_NAME])
            else none) := by
  induction sheets with
  | nil => refine ⟨rfl, rfl, rfl⟩
  | cons s rest ih =>
    obtain ⟨name, values⟩ := s
    obtain ⟨ih1, ih2, ih3⟩ := ih
    refine ⟨?_, ?_, ?_⟩
    · show (name, (preloadSheet values).1) :: (preload_sheets_data rest).data = _
      rw [List.map_cons, ih1]
    · show (preloadSheet values).2.1 + (preload_sheets_data rest).total = _
      rw [preloadSheet_count, ih2]
      show _ = dataTotal ((name, (preloadSheet values).1) :: (preload_sheets_data rest).data)
      rw [dataTotal_cons]
    · show (match (preloadSheet values).2.2 with
          | some h => [(name, h)] | none => []) ++ (preload_sheets_data rest).headerWrites = _
      rw [preloadSheet_headerWrite, List.filterMap_cons, ih3]
      cases values with
      | nil => rfl
      | cons hd tl =>
        by_cases hcond : URL_COLUMN_NAME ∈ hd ∧ STATUS_COLUMN_NAME ∉ hd
        · simp [hcond]
        · simp [hcond]

lemma process_sheets_eq (env : Str → Option Nat) (sheets : List (Str × List (List Str)))
    (h : (preload_sheets_data sheets).total ≠ 0) :
    process_sheets env sheets
      = ⟨(processSheetsGo env 0 (preload_sheets_data sheets).data).summaries,
          (processSheetsGo env 0 (preload_sheets_data sheets).data).details,
          ((preload_sheets_data sheets).headerWrites.map
            (fun hw => Event.headerWrite hw.1 hw.2))
            ++ (processSheetsGo env 0 (preload_sheets_data sheets).data).trace,
          (processSheetsGo env 0 (preload_sheets_data sheets).data).progressEvents,
          (preload_sheets_data sheets).total⟩ := by
  simp [process_sheets, h]

lemma process_sheets_eq_zero (env : Str → Option Nat) (sheets : List (Str × List (List Str)))
    (h : (preload_sheets_data sheets).total = 0) :
    process_sheets env sheets
      = ⟨[], [],
          ((preload_sheets_data sheets).headerWrites.map
            (fun hw => Event.headerWrite hw.1 hw.2)),
          [], (preload_sheets_data sheets).total⟩ := by
  simp [process_sheets, h]

/-- C10: during the pre-scan, the header row of exactly those selected
sheets that are non-empty, contain the URL column and lack the status
column is written back, extended by the status column name — regardless of
the body (so also for sheets with zero URLs); and in the run's effect
trace all these header writes precede every other effect, in particular
every probe. -/
theorem preload_header_writes (sheets : List (Str × List (List Str)))
    (env : Str → Option Nat) :
    (preload_sheets_data sheets).headerWrites
      = sheets.filterMap (fun s =>
          match s.2 with
          | [] => none
          | hd :: _ =>
            if URL_COLUMN_NAME ∈ hd ∧ STATUS_COLUMN_NAME ∉ hd then
              some (s.1, hd ++ [STATUS_COLUMN_NAME])
            else none) ∧
    ∃ rest, (process_sheets env sheets).trace
        = ((preload_sheets_data sheets).headerWrites.map
            (fun hw => Event.headerWrite hw.1 hw.2)) ++ rest
        ∧ ∀ e ∈ rest, e.isHeaderWrite = false := by
  refine ⟨(preload_spec sheets).2.2, ?_⟩
  by_cases h : (preload_sheets_data sheets).total = 0
  · refine ⟨[], ?_, by simp⟩
    rw [process_sheets_eq_zero env sheets h, List.append_nil]
  · refine ⟨(processSheetsGo env 0 (preload_sheets_data sheets).data).trace, ?_, ?_⟩
    · rw [process_sheets_eq env sheets h]
    · exact ((processSheetsGo_spec env (preload_sheets_data sheets).data) 0).2.2.2

/-- C10 (witness): one sheet whose header has the URL column but not the
status column gets exactly one header write with the extended header. -/
theorem preload_header_writes_witness :
    (preload_sheets_data
        [((['A'] : Str), ([[URL_COLUMN_NAME]] : List (List Str)))]).headerWrites
      = ([((['A'] : Str), ([[URL_COLUMN_NAME]] : List (List Str)))].filterMap
          (fun s =>
            match s.2 with
            | [] => none
            | hd :: _ =>
              if URL_COLUMN_NAME ∈ hd ∧ STATUS_COLUMN_NAME ∉ hd then
                some (s.1, hd ++ [STATUS_COLUMN_NAME])
              else none)) :=
  (preload_header_writes [((['A'] : Str), ([[URL_COLUMN_NAME]] : List (List Str)))]
    (fun _ => none)).1

/-- C6 (counterexample): when every selected sheet is empty the pre-scan
total is zero and `process_sheets` returns an empty summary list, not one
summary per selected sheet. -/
theorem process_sheets_empty_sel_cex :
    (process_sheets (fun _ => none)
        [((['A'] : Str), ([] : List (List Str)))]).summaries.length = 0 ∧
    ([((['A'] : Str), ([] : List (List Str)))]
        : List (Str × List (List Str))).length = 1 := by
  constructor <;> decide

/-- C6 (amended): provided the pre-scan found at least one URL,
`process_sheets` yields exactly one summary per selected sheet, in
selection order, each carrying the sheet's walk count as both its total
and its processed count; empty sheets and sheets lacking the URL column
get a `(0, 0)` summary. -/
theorem process_sheets_summaries (env : Str → Option Nat)
    (sheets : List (Str × List (List Str)))
    (h : (preload_sheets_data sheets).total ≠ 0) :
    (process_sheets env sheets).summaries
      = sheets.map (fun s =>
          ⟨s.1, sheetCount (preloadSheet s.2).1, sheetCount (preloadSheet s.2).1⟩) ∧
    (∀ s ∈ sheets, s.2 = [] → sheetCount (preloadSheet s.2).1 = 0) ∧
    (∀ s ∈ sheets, ∀ hd tl, s.2 = hd :: tl → URL_COLUMN_NAME ∉ hd →
      sheetCount (preloadSheet s.2).1 = 0) := by
  refine ⟨?_, ?_, ?_⟩
  · rw [process_sheets_eq env sheets h]
    show (processSheetsGo env 0 (preload_sheets_data sheets).data).summaries = _
    rw [((processSheetsGo_spec env (preload_sheets_data sheets).data) 0).1,
      (preload_spec sheets).1, List.map_map]
    rfl
  · intro s _ he
    rw [he]
    simp [preloadSheet, sheetCount]
  · intro s _ hd tl heq hnot
    rw [heq]
    simp [preloadSheet, hnot, sheetCount]

def sheetsOne : List (Str × List (List Str)) :=
  [((['A'] : Str), ([[URL_COLUMN_NAME], [("a.com".toList : Str)]] : List (List Str)))]

/-- C6 (witness): a one-sheet selection with a single URL row yields the
single summary `(total 1, processed 1)`. -/
theorem process_sheets_summaries_witness :
    (process_sheets (fun _ => some 200) sheetsOne).summaries
      = sheetsOne.map (fun s =>
          ⟨s.1, sheetCount (preloadSheet s.2).1, sheetCount (preloadSheet s.2).1⟩) :=
  (process_sheets_summaries (fun _ => some 200) sheetsOne (by decide)).1

lemma chain_div (T : ℚ) (hT : 0 < T) (n : Nat) : ∀ s : Nat,
    List.Chain' (· ≤ ·) ((List.range' s n).map (fun k : Nat => (k : ℚ) / T)) := by
  induction n with
  | zero =>
    intro s
    simp
  | succ m ihm =>
    intro s
    rw [List.range'_succ, List.map_cons]
    cases m with
    | zero => simp
    | succ k =>
      rw [List.range'_succ, List.map_cons]
      refine List.chain'_cons.mpr ⟨?_, ?_⟩
      · refine (div_le_div_iff_of_pos_right hT).mpr ?_
        exact_mod_cast Nat.le_succ s
      · have h2 := ihm (s + 1)
        rw [List.range'_succ, List.map_cons] at h2
        exact h2

/-- C7: the progress reports of a run are exactly the counter values
`1, …, total` where `total` is the pre-scan count (so the number of rows
actually probed equals the pre-scan count — both use the same
extraction), and the reported fractions `k / total` are monotonically
non-decreasing, lie in `[0, 1]`, and the one reported after the last
probe is exactly `1`. -/
theorem process_sheets_progress (env : Str → Option Nat)
    (sheets : List (Str × List (List Str)))
    (h : (preload_sheets_data sheets).total ≠ 0) :
    (process_sheets env sheets).total = (preload_sheets_data sheets).total ∧
    (process_sheets env sheets).progressEvents
      = List.range' 1 ((process_sheets env sheets).total) ∧
    (process_sheets env sheets).progressEvents.length
      = (preload_sheets_data sheets).total ∧
    List.Chain' (· ≤ ·) ((process_sheets env sheets).progressEvents.map
        (fun k : Nat => (k : ℚ) / ((process_sheets env sheets).total : ℚ))) ∧
    (∀ q ∈ (process_sheets env sheets).progressEvents.map
        (fun k : Nat => (k : ℚ) / ((process_sheets env sheets).total : ℚ)),
      0 ≤ q ∧ q ≤ 1) ∧
    ((process_sheets env sheets).progressEvents.map
        (fun k : Nat => (k : ℚ) / ((process_sheets env sheets).total : ℚ))).getLast?
      = some 1 := by
  have htot : (process_sheets env sheets).total = (preload_sheets_data sheets).total := by
    rw [process_sheets_eq env sheets h]
  have hev : (process_sheets env sheets).progressEvents
      = List.range' 1 ((preload_sheets_data sheets).total) := by
    rw [process_sheets_eq env sheets h]
    show (processSheetsGo env 0 (preload_sheets_data sheets).data).progressEvents = _
    rw [((processSheetsGo_spec env (preload_sheets_data sheets).data) 0).2.1,
      ← (preload_spec sheets).2.1]
  have hT0 : 0 < (preload_sheets_data sheets).total := Nat.pos_of_ne_zero h
  have hTQ : (0 : ℚ) < ((preload_sheets_data sheets).total : ℚ) := by
    exact_mod_cast hT0
  refine ⟨htot, ?_, ?_, ?_, ?_, ?_⟩
  · rw [hev, htot]
  · rw [hev, List.length_range']
  · rw [hev, htot]
    exact chain_div _ hTQ _ 1
  · rw [hev, htot]
    intro q hq
    obtain ⟨k, hk, rfl⟩ := List.mem_map.mp hq
    have hk2 : 1 ≤ k ∧ k < 1 + (preload_sheets_data sheets).total := by
      simpa using List.mem_range'_1.mp hk
    constructor
    · exact div_nonneg (Nat.cast_nonneg k) (le_of_lt hTQ)
    · refine (div_le_one hTQ).mpr ?_
      exact_mod_cast Nat.lt_succ_iff.mp (by omega)
  · rw [hev, htot]
    obtain ⟨m, hm⟩ : ∃ m, (preload_sheets_data sheets).total = m + 1 :=
      ⟨(preload_sheets_data sheets).total - 1, by omega⟩
    rw [hm, List.range'_concat, List.map_append]
    simp only [List.map_cons, List.map_nil]
    rw [List.getLast?_concat]
    have hval : ((1 + 1 * m : Nat) : ℚ) = ((m + 1 : Nat) : ℚ) := by
      push_cast
      ring
    rw [hval, div_self (by exact_mod_cast Nat.succ_ne_zero m)]

/-- C7 (witness): with one sheet and one URL row the reports are `[1]`. -/
theorem process_sheets_progress_witness :
    (process_sheets (fun _ => some 200) sheetsOne).progressEvents
      = List.range' 1 ((process_sheets (fun _ => some 200) sheetsOne).total) :=
  (process_sheets_progress (fun _ => some 200) sheetsOne (by decide)).2.1

end LBApp
